import Mathlib

/-
Shallow embedding of the fuzzy query-filtering and ranking engine of
alfred-workflow-py3: the functions `Workflow.filter`, `Workflow._filter_item`
and `Workflow._search_for_query` from `workflow/old_workflow.py`, together
with the constants of `workflow/constants.py`.

Modelling conventions:
- Python strings are `List Char`; `len` is `List.length`.
- Python floats are modelled as `ℚ`.  Every score in the engine is of the
  form `a - m/n` or `a / m` for machine integers, so the rational model is
  the intended real-number semantics of the formulas.
- `str.lower` is modelled on the ASCII range (uppercase ASCII letters map to
  lowercase, every other character is fixed); `str.strip` strips the ASCII
  whitespace characters.
- The helpers `isascii` and `fold_to_ascii` used by `_filter_item` are not
  defined in this repository's sources.  `isascii` is modelled from the spec
  (pure-ASCII test); the diacritic-folding table is abstracted as an opaque
  function parameter `fold` threaded through the definitions, so every
  theorem quantifies over it.
- `self.settings.get('__workflow_diacritic_folding', fold_diacritics)` is an
  external settings lookup; the `fold_diacritics` parameter below stands for
  the value after that override.
- Python's stable `list.sort` is modelled by `List.insertionSort` (a stable
  sort); `reverse=True` is the stable sort under the reversed comparator.
-/

namespace AlfredW

/-- Python strings, as lists of characters. -/
abbrev Str := List Char

/-- Ascii whitespace, as stripped by Python's str.strip(). -/
def pyIsSpace (c : Char) : Bool :=
  c = ' ' || c = '\t' || c = '\n' || c = '\r' || c = '\x0b' || c = '\x0c'

/-- Character class of the regex [^a-zA-Z0-9] used by split_on_delimiters,
negated: an ASCII letter or digit. -/
def isAlnumAscii (c : Char) : Bool :=
  ('a' ≤ c && c ≤ 'z') || ('A' ≤ c && c ≤ 'Z') || ('0' ≤ c && c ≤ '9')

/-- Membership in the INITIALS constant of constants.py:
string.ascii_uppercase + string.digits. -/
def isInitialChar (c : Char) : Bool :=
  ('A' ≤ c && c ≤ 'Z') || ('0' ≤ c && c ≤ '9')

/-- Python str.lower, modelled on the ASCII case mapping. -/
def pyLowerChar (c : Char) : Char :=
  if 'A' ≤ c && c ≤ 'Z' then Char.ofNat (c.toNat + 32) else c

/-- Lowercase a whole string. -/
def pyLower (s : Str) : Str := s.map pyLowerChar

/-- Modelled from the spec: the helper isascii, whose definition is missing
from this repository's sources, tests that the text is pure ASCII (every
code point below 128). -/
def isasciiChar (c : Char) : Bool := c.toNat < 128

/-- Modelled from the spec: isascii on a whole string. -/
def isascii (s : Str) : Bool := s.all isasciiChar

/-- Python str.strip(): drop whitespace from both ends. -/
def pyStrip (s : Str) : Str :=
  ((s.dropWhile pyIsSpace).reverse.dropWhile pyIsSpace).reverse

/-- Split a string at every character satisfying p, keeping empty pieces,
exactly like re.split with a single-character class, and like
str.split(' ') for p = (· = ' ').  The result is always non-empty. -/
def pySplit (p : Char → Bool) : Str → List Str
  | [] => [[]]
  | c :: cs =>
    match pySplit p cs with
    | [] => [[]]
    | piece :: rest =>
      if p c then [] :: piece :: rest else (c :: piece) :: rest

/-- split_on_delimiters of constants.py: re.compile('[^a-zA-Z0-9]').split. -/
def split_on_delimiters (s : Str) : List Str :=
  pySplit (fun c => !isAlnumAscii c) s

/-- Python substring test: needle in hay. -/
def strIn (needle : Str) : Str → Bool
  | [] => needle.isEmpty
  | c :: rest => needle.isPrefixOf (c :: rest) || strIn needle rest

/-- Case-insensitive character match, as used by re.IGNORECASE on a
single escaped literal character. -/
def charIEq (pat c : Char) : Bool := pyLowerChar c = pyLowerChar pat

/-- Search semantics of the pattern built by _search_for_query:
'.*?c1.*?c2...' compiled with re.IGNORECASE and applied with .search.
Because the pattern opens with a non-greedy wildcard, a successful search
always has match.start() = 0, and non-greedy backtracking produces the
greedy-earliest embedding of the query characters; the returned value is
match.end(): the position one past the earliest-embedded last character.
Returns none when the query is not a case-insensitive subsequence. -/
def reSearchEnd : Str → Str → Option Nat
  | [], _ => some 0
  | c :: cs, v =>
    match v.findIdx? (charIEq c) with
    | none => none
    | some i => (reSearchEnd cs (v.drop (i + 1))).map (fun e => i + 1 + e)

/-- The capital letters and digits of value, in order:
''.join([c for c in value if c in INITIALS]). -/
def capitalsOf (v : Str) : Str := v.filter isInitialChar

/-- atoms = [s.lower() for s in split_on_delimiters(value)]. -/
def atomsOf (v : Str) : List Str := (split_on_delimiters v).map pyLower

/-- initials = ''.join([s[0] for s in atoms if s]). -/
def initialsOf (v : Str) : Str := (atomsOf v).filterMap List.head?

/-- The pre-filter of _filter_item: set(query) <= set(value.lower()). -/
def prefilter (v q : Str) : Bool := q.all (fun c => (pyLower v).contains c)

/-- Match filter flags from constants.py. -/
def MATCH_STARTSWITH : ℕ := 1

/-- Match items whose capital letters start with the query. -/
def MATCH_CAPITALS : ℕ := 2

/-- Match items with a component word that matches the query. -/
def MATCH_ATOM : ℕ := 4

/-- Match items whose initials start with the query. -/
def MATCH_INITIALS_STARTSWITH : ℕ := 8

/-- Match items whose initials contain the query. -/
def MATCH_INITIALS_CONTAIN : ℕ := 16

/-- Combination of the two initials rules. -/
def MATCH_INITIALS : ℕ := 24

/-- Match items containing the query as a substring. -/
def MATCH_SUBSTRING : ℕ := 32

/-- Match items containing all query characters in order. -/
def MATCH_ALLCHARS : ℕ := 64

/-- Combination of all other MATCH_* constants. -/
def MATCH_ALL : ℕ := 127

/-- The body of _filter_item after query lowering and diacritic folding:
the pre-filter followed by the chain of rule tests, each guarded by its
bit in match_on, returning at the first test that fires.  v is the
(possibly folded) value, q the lowercased query word. -/
def filterItemCore (v q : Str) (match_on : ℕ) : ℚ × Option ℕ :=
  if !(prefilter v q) then (0, none)
  else if match_on &&& MATCH_STARTSWITH != 0 && q.isPrefixOf (pyLower v) then
    (100 - (v.length : ℚ) / (q.length : ℚ), some MATCH_STARTSWITH)
  else if match_on &&& MATCH_CAPITALS != 0
      && q.isPrefixOf (pyLower (capitalsOf v)) then
    (100 - ((capitalsOf v).length : ℚ) / (q.length : ℚ), some MATCH_CAPITALS)
  else if match_on &&& MATCH_ATOM != 0 && (atomsOf v).contains q then
    (100 - (v.length : ℚ) / (q.length : ℚ), some MATCH_ATOM)
  else if match_on &&& MATCH_INITIALS_STARTSWITH != 0
      && q.isPrefixOf (initialsOf v) then
    (100 - ((initialsOf v).length : ℚ) / (q.length : ℚ),
      some MATCH_INITIALS_STARTSWITH)
  else if match_on &&& MATCH_INITIALS_CONTAIN != 0
      && strIn q (initialsOf v) then
    (95 - ((initialsOf v).length : ℚ) / (q.length : ℚ),
      some MATCH_INITIALS_CONTAIN)
  else if match_on &&& MATCH_SUBSTRING != 0 && strIn q (pyLower v) then
    (90 - (v.length : ℚ) / (q.length : ℚ), some MATCH_SUBSTRING)
  else if match_on &&& MATCH_ALLCHARS != 0 then
    match reSearchEnd q v with
    | some e => (100 / ((1 + (0 : ℚ)) * ((e : ℚ) - 0 + 1)), some MATCH_ALLCHARS)
    | none => (0, none)
  else (0, none)

/-- The value actually matched against: _filter_item lowers the query,
disables folding when the lowered query is not pure ASCII, and folds the
value when folding is (still) enabled. -/
def effValue (fold : Str → Str) (value query : Str) (fold_diacritics : Bool) :
    Str :=
  if (if !isascii (pyLower query) then false else fold_diacritics)
  then fold value else value

/-- Workflow._filter_item(value, query, match_on, fold_diacritics),
with the diacritic-folding table abstracted as fold. -/
def filterItem (fold : Str → Str) (value query : Str) (match_on : ℕ)
    (fold_diacritics : Bool) : ℚ × Option ℕ :=
  filterItemCore (effValue fold value query fold_diacritics) (pyLower query)
    match_on

/-- The words of a query: the query is stripped, split on single spaces,
and each word is stripped again.  (Empty words are skipped later, inside
the per-item loop.) -/
def wordsOf (query : Str) : List Str :=
  (pySplit (fun c => c = ' ') (pyStrip query)).map pyStrip

/-- The inner word loop of Workflow.filter, carrying the mutable state
(skip, score, rule) of the Python loop: empty words are skipped; a word
scoring 0 sets skip; each processed word overwrites rule and adds its
score. -/
def wordLoop (fold : Str → Str) (match_on : ℕ) (fold_diacritics : Bool)
    (v : Str) : List Str → Bool → ℚ → Option ℕ → Bool × ℚ × Option ℕ
  | [], skip, score, rule => (skip, score, rule)
  | w :: ws, skip, score, rule =>
    if w = [] then wordLoop fold match_on fold_diacritics v ws skip score rule
    else
      let sr := filterItem fold v w match_on fold_diacritics
      wordLoop fold match_on fold_diacritics v ws
        (skip || decide (sr.1 = 0)) (score + sr.1) sr.2

/-- The sort key built for a surviving candidate:
(100.0 / score, value.lower(), score). -/
abbrev SortKey := ℚ × Str × ℚ

/-- The per-candidate payload: (item, score, rule). -/
abbrev Payload (α : Type) := α × ℚ × Option ℕ

/-- One iteration of the item loop of Workflow.filter: compute the trimmed
search key, drop the candidate if it is empty, run the word loop, drop the
candidate if any word failed or the total score is zero, otherwise emit
((100.0/score, value.lower(), score), (item, score, rule)). -/
def itemEntry (fold : Str → Str) (key : α → Str) (words : List Str)
    (match_on : ℕ) (fold_diacritics : Bool) (item : α) :
    Option (SortKey × Payload α) :=
  let v := pyStrip (key item)
  if v = [] then none
  else
    let slr := wordLoop fold match_on fold_diacritics v words false 0 none
    if slr.1 then none
    else if slr.2.1 ≠ 0 then
      some ((100 / slr.2.1, pyLower v, slr.2.1), (item, slr.2.1, slr.2.2))
    else none

/-- The results list accumulated by the item loop, in input order. -/
def rawResults (fold : Str → Str) (query : Str) (items : List α)
    (key : α → Str) (match_on : ℕ) (fold_diacritics : Bool) :
    List (SortKey × Payload α) :=
  items.filterMap
    (itemEntry fold key (wordsOf query) match_on fold_diacritics)

/-- Comparison of sort keys, as Python compares the tuples
(100.0/score, value.lower(), score) lexicographically. -/
def sortKeyLe (x y : SortKey) : Prop :=
  x.1 < y.1 ∨ (x.1 = y.1 ∧ (x.2.1 < y.2.1 ∨ (x.2.1 = y.2.1 ∧ x.2.2 ≤ y.2.2)))

/-- Order of the stored entries under results.sort(reverse=False),
restricted to the sort-key triple, ties resolved by stability.  CPython
compares the full (sort key, payload) tuples and falls through to the
payload — and so to comparing the items themselves — only when the sort
keys are exactly equal; that fallible fall-through is modelled separately
by pyEntryLt and the monadic sort below.  This pure key order agrees with
the full comparison whenever tied entries are identical, which is what the
ordering and membership results need. -/
def entryLe (a b : SortKey × Payload α) : Prop := sortKeyLe a.1 b.1

/-- Order of the stored entries under results.sort(reverse=True),
restricted to the sort-key triple exactly as entryLe. -/
def entryGe (a b : SortKey × Payload α) : Prop := sortKeyLe b.1 a.1

instance : DecidableRel sortKeyLe := fun _ _ => by
  unfold sortKeyLe; infer_instance

instance : DecidableRel (entryLe (α := α)) := fun _ _ => by
  unfold entryLe; infer_instance

instance : DecidableRel (entryGe (α := α)) := fun _ _ => by
  unfold entryGe; infer_instance

/-- results.sort(reverse=ascending): Python's stable sort, modelled by the
stable insertion sort under the chosen comparator. -/
def pySortResults (ascending : Bool) (l : List (SortKey × Payload α)) :
    List (SortKey × Payload α) :=
  if ascending then l.insertionSort entryGe else l.insertionSort entryLe

/-- The annotated result list of Workflow.filter after sorting, projecting
away the sort keys, applying the min_score filter and the max_results
truncation, in that order. -/
def annotatedResults (fold : Str → Str) (query : Str) (items : List α)
    (key : α → Str) (ascending : Bool) (min_score : ℚ) (max_results : ℕ)
    (match_on : ℕ) (fold_diacritics : Bool) : List (Payload α) :=
  let res := rawResults fold query items key match_on fold_diacritics
  let proj := (pySortResults ascending res).map Prod.snd
  let kept :=
    if min_score ≠ 0 then proj.filter (fun r => decide (min_score < r.2.1))
    else proj
  if max_results ≠ 0 ∧ kept.length > max_results then kept.take max_results
  else kept

/-- The dynamically-typed return value of Workflow.filter: the untouched
input list (blank query), a list of bare items, or a list of
(item, score, rule) triples. -/
inductive FilterOutput (α : Type) where
  | plain : List α → FilterOutput α
  | scored : List (Payload α) → FilterOutput α
deriving DecidableEq

/-- Workflow.filter(query, items, key, ascending, include_score, min_score,
max_results, match_on, fold_diacritics).  A blank (empty or
whitespace-only) query returns the items untouched; otherwise the matching
pipeline runs and the output is annotated exactly when include_score is
set. -/
def pyFilter (fold : Str → Str) (query : Str) (items : List α)
    (key : α → Str) (ascending include_score : Bool) (min_score : ℚ)
    (max_results : ℕ) (match_on : ℕ) (fold_diacritics : Bool) :
    FilterOutput α :=
  if pyStrip query = [] then .plain items
  else
    let res := annotatedResults fold query items key ascending min_score
      max_results match_on fold_diacritics
    if include_score then .scored res else .plain (res.map Prod.fst)

/-- The fixed priority order of the eight rule bits (MATCH_INITIALS being
the combination 8 | 16, seven single bits appear). -/
def ruleOrder : List ℕ :=
  [MATCH_STARTSWITH, MATCH_CAPITALS, MATCH_ATOM, MATCH_INITIALS_STARTSWITH,
    MATCH_INITIALS_CONTAIN, MATCH_SUBSTRING, MATCH_ALLCHARS]

/-- The matching condition of each single rule bit, per the spec's rule
table, on the post-fold value v and the lowercased word q. -/
def ruleCond (v q : Str) : ℕ → Bool
  | 1 => q.isPrefixOf (pyLower v)
  | 2 => q.isPrefixOf (pyLower (capitalsOf v))
  | 4 => (atomsOf v).contains q
  | 8 => q.isPrefixOf (initialsOf v)
  | 16 => strIn q (initialsOf v)
  | 32 => strIn q (pyLower v)
  | 64 => (reSearchEnd q v).isSome
  | _ => false

/-- The score formula of each single rule bit, per the spec's rule table. -/
def ruleScore (v q : Str) : ℕ → ℚ
  | 1 => 100 - (v.length : ℚ) / (q.length : ℚ)
  | 2 => 100 - ((capitalsOf v).length : ℚ) / (q.length : ℚ)
  | 4 => 100 - (v.length : ℚ) / (q.length : ℚ)
  | 8 => 100 - ((initialsOf v).length : ℚ) / (q.length : ℚ)
  | 16 => 95 - ((initialsOf v).length : ℚ) / (q.length : ℚ)
  | 32 => 90 - (v.length : ℚ) / (q.length : ℚ)
  | 64 =>
    match reSearchEnd q v with
    | some e => 100 / ((1 + (0 : ℚ)) * ((e : ℚ) - 0 + 1))
    | none => 0
  | _ => 0

/-- Return at the first listed rule that is active in the mask and whose
condition holds (regardless of its score). -/
def firstCondRule (v q : Str) (m : ℕ) : List ℕ → ℚ × Option ℕ
  | [] => (0, none)
  | b :: bs =>
    if m &&& b ≠ 0 ∧ ruleCond v q b then (ruleScore v q b, some b)
    else firstCondRule v q m bs

/-- Return at the first listed rule that is active in the mask, whose
condition holds, and whose score is nonzero. -/
def firstNonzeroRule (v q : Str) (m : ℕ) : List ℕ → ℚ × Option ℕ
  | [] => (0, none)
  | b :: bs =>
    if m &&& b ≠ 0 ∧ ruleCond v q b ∧ ruleScore v q b ≠ 0 then
      (ruleScore v q b, some b)
    else firstNonzeroRule v q m bs

/-- Word matching as the spec's invariant section words it: after the
pre-filter, the first active rule in priority order that yields a nonzero
score wins.  Same preprocessing as _filter_item. -/
def matchWordFirstNonzero (fold : Str → Str) (value query : Str)
    (match_on : ℕ) (fold_diacritics : Bool) : ℚ × Option ℕ :=
  let q := pyLower query
  let v := effValue fold value query fold_diacritics
  if !(prefilter v q) then (0, none)
  else firstNonzeroRule v q match_on ruleOrder

/-- Word matching restated over the ordered rule table: after the
pre-filter, the first active rule in priority order whose condition holds
wins, whatever its score.  Same preprocessing as _filter_item. -/
def matchWordOrdered (fold : Str → Str) (value query : Str) (match_on : ℕ)
    (fold_diacritics : Bool) : ℚ × Option ℕ :=
  let q := pyLower query
  let v := effValue fold value query fold_diacritics
  if !(prefilter v q) then (0, none)
  else firstCondRule v q match_on ruleOrder

/-- The spec's definition of atoms: the maximal runs of (ASCII) alphanumeric
characters of the string, produced by splitting on runs of non-alphanumeric
separators; empty strings never appear. -/
def maximalAlnumRuns : Str → List Str
  | [] => []
  | c :: cs =>
    let r := maximalAlnumRuns cs
    if isAlnumAscii c then
      match cs with
      | [] => [[c]]
      | c2 :: _ =>
        if isAlnumAscii c2 then (c :: r.headI) :: r.tail else [c] :: r
    else r

/-- The first error raised by the key function over the items, in input
order, if any. -/
def firstKeyError (keyE : α → Except ε Str) : List α → Option ε
  | [] => none
  | i :: rest =>
    match keyE i with
    | .error e => some e
    | .ok _ => firstKeyError keyE rest

/-- An exception escaping Workflow.filter: either an exception raised by
the caller-supplied key function, or the TypeError CPython raises when the
sort compares two values that do not support ordering. -/
inductive PyExc (ε : Type) where
  | user : ε → PyExc ε
  | typeError : PyExc ε
deriving DecidableEq

/-- Python tuple comparison, strict, on the sort-key triple
(100.0/score, value.lower(), score): the first unequal component decides;
all three component types are totally ordered, so no error arises here. -/
def pyKeyLt (x y : SortKey) : Bool :=
  if x.1 ≠ y.1 then decide (x.1 < y.1)
  else if x.2.1 ≠ y.2.1 then decide (x.2.1 < y.2.1)
  else if x.2.2 ≠ y.2.2 then decide (x.2.2 < y.2.2)
  else false

/-- Python tuple comparison, strict, on the payload (item, score, rule),
reached only when two sort keys are exactly equal.  itemEq models item1 ==
item2 (assumed total, as for built-in types); itemLt models item1 < item2,
with none standing for the TypeError raised by non-comparable item types.
Comparing a None rule against an int rule also raises TypeError. -/
def pyPayloadLt (itemEq : α → α → Bool) (itemLt : α → α → Option Bool)
    (p q : Payload α) : Option Bool :=
  if !(itemEq p.1 q.1) then itemLt p.1 q.1
  else if p.2.1 ≠ q.2.1 then some (decide (p.2.1 < q.2.1))
  else if p.2.2 ≠ q.2.2 then
    match p.2.2, q.2.2 with
    | some a, some b => some (decide (a < b))
    | _, _ => none
  else some false

/-- Python comparison of two stored results entries, as evaluated by
results.sort: the sort-key tuples decide unless exactly equal, in which
case comparison falls through to the payload and may raise. -/
def pyEntryLt (itemEq : α → α → Bool) (itemLt : α → α → Option Bool)
    (e f : SortKey × Payload α) : Option Bool :=
  if e.1 ≠ f.1 then some (pyKeyLt e.1 f.1)
  else pyPayloadLt itemEq itemLt e.2 f.2

/-- Stable insertion of a into an already sorted list under a fallible
strict comparison: a lands before the first element b with not (b < a), so
an element earlier in the original list precedes equal later ones; a
failing comparison aborts with none (TypeError). -/
def orderedInsertE (lt : β → β → Option Bool) (a : β) :
    List β → Option (List β)
  | [] => some [a]
  | b :: bs =>
    match lt b a with
    | none => none
    | some true => (orderedInsertE lt a bs).map (b :: ·)
    | some false => some (a :: b :: bs)

/-- Stable sort under a fallible strict comparison.  CPython's list.sort
(binary insertion within Timsort) may perform a different set of
comparisons, but every comparison either sort performs is between two
entries of the list, and when every pair of entries is comparable both
produce the unique stable order. -/
def insertionSortE (lt : β → β → Option Bool) : List β → Option (List β)
  | [] => some []
  | a :: as =>
    match insertionSortE lt as with
    | none => none
    | some l => orderedInsertE lt a l

/-- results.sort(reverse=ascending) under the full fallible comparison:
reverse=True sorts as if each comparison were reversed, stability
preserved. -/
def pySortResultsE (itemEq : α → α → Bool) (itemLt : α → α → Option Bool)
    (ascending : Bool) (l : List (SortKey × Payload α)) :
    Option (List (SortKey × Payload α)) :=
  if ascending then
    insertionSortE (fun e f => pyEntryLt itemEq itemLt f e) l
  else insertionSortE (pyEntryLt itemEq itemLt) l

/-- The item loop with a fallible key function: the first key error aborts
the whole loop, as an uncaught Python exception would. -/
def rawResultsE (fold : Str → Str) (keyE : α → Except ε Str)
    (words : List Str) (match_on : ℕ) (fold_diacritics : Bool) :
    List α → Except ε (List (SortKey × Payload α))
  | [] => .ok []
  | item :: rest =>
    match keyE item with
    | .error e => .error e
    | .ok kv =>
      match rawResultsE fold keyE words match_on fold_diacritics rest with
      | .error e => .error e
      | .ok tail =>
        let v := pyStrip kv
        if v = [] then .ok tail
        else
          let slr := wordLoop fold match_on fold_diacritics v words false 0 none
          if slr.1 then .ok tail
          else if slr.2.1 ≠ 0 then
            .ok (((100 / slr.2.1, pyLower v, slr.2.1),
              (item, slr.2.1, slr.2.2)) :: tail)
          else .ok tail

/-- Workflow.filter with a fallible key function and the full fallible
sort comparison: an error raised by key while the item loop runs
propagates to the caller as a user exception, and a sort comparison that
reaches non-comparable values propagates as a TypeError. -/
def pyFilterExc (fold : Str → Str) (query : Str) (items : List α)
    (keyE : α → Except ε Str) (itemEq : α → α → Bool)
    (itemLt : α → α → Option Bool) (ascending include_score : Bool)
    (min_score : ℚ) (max_results : ℕ) (match_on : ℕ)
    (fold_diacritics : Bool) : Except (PyExc ε) (FilterOutput α) :=
  if pyStrip query = [] then .ok (.plain items)
  else
    match rawResultsE fold keyE (wordsOf query) match_on fold_diacritics
        items with
    | .error e => .error (.user e)
    | .ok res =>
      match pySortResultsE itemEq itemLt ascending res with
      | none => .error .typeError
      | some sorted =>
        let proj := sorted.map Prod.snd
        let kept :=
          if min_score ≠ 0 then
            proj.filter (fun r => decide (min_score < r.2.1))
          else proj
        let final :=
          if max_results ≠ 0 ∧ kept.length > max_results then
            kept.take max_results
          else kept
        .ok (if include_score then .scored final
          else .plain (final.map Prod.fst))

/-- Membership of a candidate in either shape of filter output. -/
def memOut (x : α) : FilterOutput α → Prop
  | .plain l => x ∈ l
  | .scored l => ∃ s r, (x, s, r) ∈ l

/-- Two annotated results with equal total score appear with their
lowercased trimmed search keys in ascending lexicographic order. -/
def tieAlpha (key : α → Str) (a b : Payload α) : Prop :=
  a.2.1 = b.2.1 → pyLower (pyStrip (key a.1)) ≤ pyLower (pyStrip (key b.1))

/-- Two annotated results with equal total score appear with their
lowercased trimmed search keys in descending lexicographic order. -/
def tieAlphaRev (key : α → Str) (a b : Payload α) : Prop :=
  a.2.1 = b.2.1 → pyLower (pyStrip (key b.1)) ≤ pyLower (pyStrip (key a.1))

instance : IsTotal SortKey sortKeyLe := by
  constructor
  intro x y
  unfold sortKeyLe
  rcases lt_trichotomy x.1 y.1 with h | h | h
  · exact Or.inl (Or.inl h)
  · rcases lt_trichotomy x.2.1 y.2.1 with h2 | h2 | h2
    · exact Or.inl (Or.inr ⟨h, Or.inl h2⟩)
    · rcases le_total x.2.2 y.2.2 with h3 | h3
      · exact Or.inl (Or.inr ⟨h, Or.inr ⟨h2, h3⟩⟩)
      · exact Or.inr (Or.inr ⟨h.symm, Or.inr ⟨h2.symm, h3⟩⟩)
    · exact Or.inr (Or.inr ⟨h.symm, Or.inl h2⟩)
  · exact Or.inr (Or.inl h)

instance : IsTrans SortKey sortKeyLe := by
  constructor
  intro x y z hxy hyz
  unfold sortKeyLe at hxy hyz ⊢
  rcases hxy with h1 | ⟨e1, h1⟩
  · rcases hyz with h2 | ⟨e2, _⟩
    · exact Or.inl (h1.trans h2)
    · exact Or.inl (e2 ▸ h1)
  · rcases hyz with h2 | ⟨e2, h2⟩
    · exact Or.inl (e1 ▸ h2)
    · refine Or.inr ⟨e1.trans e2, ?_⟩
      rcases h1 with h1 | ⟨f1, h1⟩
      · rcases h2 with h2 | ⟨f2, _⟩
        · exact Or.inl (h1.trans h2)
        · exact Or.inl (f2 ▸ h1)
      · rcases h2 with h2 | ⟨f2, h2⟩
        · exact Or.inl (f1 ▸ h2)
        · exact Or.inr ⟨f1.trans f2, h1.trans h2⟩

instance : IsTotal (SortKey × Payload α) entryLe :=
  ⟨fun a b => IsTotal.total (r := sortKeyLe) a.1 b.1⟩

instance : IsTrans (SortKey × Payload α) entryLe :=
  ⟨fun _ _ _ h1 h2 => Trans.trans (r := sortKeyLe) h1 h2⟩

instance : IsTotal (SortKey × Payload α) entryGe :=
  ⟨fun a b => (IsTotal.total (r := sortKeyLe) a.1 b.1).symm⟩

instance : IsTrans (SortKey × Payload α) entryGe :=
  ⟨fun _ _ _ h1 h2 => Trans.trans (r := sortKeyLe) h2 h1⟩

lemma pyStrip_eq_nil {s : Str} (h : ∀ c ∈ s, pyIsSpace c = true) :
    pyStrip s = [] := by
  unfold pyStrip
  rw [List.dropWhile_eq_nil_iff.mpr h]
  rfl

lemma land_bit_eq_zero {m b : ℕ} (hb : 127 &&& b = b) (h : m &&& 127 = 0) :
    m &&& b = 0 := by
  rw [← hb, ← Nat.land_assoc, h]
  simp [Nat.land]

lemma filterItemCore_eq_firstCond (v q : Str) (m : ℕ) :
    filterItemCore v q m =
      if !(prefilter v q) then (0, none) else firstCondRule v q m ruleOrder := by
  by_cases hp : prefilter v q
  · cases hre : reSearchEnd q v with
    | none =>
      simp only [filterItemCore, ruleOrder, firstCondRule, ruleCond, ruleScore,
        MATCH_STARTSWITH, MATCH_CAPITALS, MATCH_ATOM,
        MATCH_INITIALS_STARTSWITH, MATCH_INITIALS_CONTAIN, MATCH_SUBSTRING,
        MATCH_ALLCHARS, hp, hre, Bool.and_eq_true, bne_iff_ne, ne_eq,
        Bool.not_true, Bool.false_eq_true, if_false, Option.isSome_none]
      simp
    | some e =>
      simp only [filterItemCore, ruleOrder, firstCondRule, ruleCond, ruleScore,
        MATCH_STARTSWITH, MATCH_CAPITALS, MATCH_ATOM,
        MATCH_INITIALS_STARTSWITH, MATCH_INITIALS_CONTAIN, MATCH_SUBSTRING,
        MATCH_ALLCHARS, hp, hre, Bool.and_eq_true, bne_iff_ne, ne_eq,
        Bool.not_true, Bool.false_eq_true, if_false, Option.isSome_some]
      simp
  · have hp' : prefilter v q = false := by simpa using hp
    simp only [filterItemCore, hp', Bool.not_false, if_true]

/-- C3: for every items sequence and every query that is empty or consists
only of whitespace, filter returns the input sequence unchanged, with no
scoring, filtering, truncation or score annotation, regardless of the
values of all other parameters. -/
theorem claim_C3 (fold : Str → Str) (query : Str) (items : List α)
    (key : α → Str) (ascending include_score : Bool) (min_score : ℚ)
    (max_results : ℕ) (match_on : ℕ) (fold_diacritics : Bool)
    (h : ∀ c ∈ query, pyIsSpace c = true) :
    pyFilter fold query items key ascending include_score min_score
      max_results match_on fold_diacritics = .plain items := by
  unfold pyFilter
  rw [if_pos (pyStrip_eq_nil h)]

/-- Witness for C3 at a whitespace query and non-default flags. -/
theorem claim_C3_witness :
    pyFilter id [' ', '\t', ' '] [(['x'] : Str), ['y']] id true true 5 1 127
      true = .plain [['x'], ['y']] :=
  claim_C3 id [' ', '\t', ' '] [(['x'] : Str), ['y']] id true true 5 1 127
    true (by decide)

/-- C2 as the claim states it is refuted: at value = 100 copies of the
letter a, word = that letter and the full rule mask, _filter_item does not
return at the first active rule yielding a nonzero score (that would be
INITIALS_STARTSWITH); it returns at STARTSWITH, whose score is zero. -/
theorem claim_C2_counterexample :
    filterItem id (List.replicate 100 'a') ['a'] 127 false
      ≠ matchWordFirstNonzero id (List.replicate 100 'a') ['a'] 127 false := by
  have hL : (filterItem id (List.replicate 100 'a') ['a'] 127 false).2
      = some 1 := by decide
  have hq : pyLower ['a'] = ['a'] := by decide
  have hv : effValue id (List.replicate 100 'a') ['a'] false
      = List.replicate 100 'a' := by decide
  have hsc1 : ruleScore (List.replicate 100 'a') ['a'] 1 = 0 := by
    norm_num [ruleScore]
  have hsc8 : ruleScore (List.replicate 100 'a') ['a'] 8 ≠ 0 := by
    norm_num [ruleScore, show initialsOf (List.replicate 100 'a') = ['a']
      from by decide]
  have hR : (matchWordFirstNonzero id (List.replicate 100 'a') ['a'] 127
      false).2 = some 8 := by
    simp only [matchWordFirstNonzero, hq, hv]
    rw [if_neg (by decide)]
    simp only [ruleOrder, firstNonzeroRule, MATCH_STARTSWITH, MATCH_CAPITALS,
      MATCH_ATOM, MATCH_INITIALS_STARTSWITH, MATCH_INITIALS_CONTAIN,
      MATCH_SUBSTRING, MATCH_ALLCHARS]
    rw [if_neg (fun hc => hc.2.2 hsc1),
      if_neg (fun hc => absurd hc.2.1 (by decide)),
      if_neg (fun hc => absurd hc.2.1 (by decide)),
      if_pos ⟨by decide, by decide, hsc8⟩]
  intro h
  rw [h, hR] at hL
  exact absurd hL (by decide)

/-- C2 amended: _filter_item evaluates the rules in the fixed priority
order STARTSWITH, CAPITALS, ATOM, INITIALS_STARTSWITH, INITIALS_CONTAIN,
SUBSTRING, ALLCHARS and returns at the first active rule whose condition
holds, whatever score that rule yields (possibly zero); no later rule
affects the result. -/
theorem claim_C2_amended (fold : Str → Str) (value query : Str)
    (match_on : ℕ) (fold_diacritics : Bool) :
    filterItem fold value query match_on fold_diacritics
      = matchWordOrdered fold value query match_on fold_diacritics := by
  unfold filterItem matchWordOrdered
  exact filterItemCore_eq_firstCond _ _ _

/-- C9: the rule returned by _filter_item is none or a single one of the
seven rule bits, present in the mask; a mask sharing no bit with
MATCH_ALL = 127 yields (0, none). -/
theorem claim_C9 (fold : Str → Str) (value query : Str) (match_on : ℕ)
    (fold_diacritics : Bool) (_hq : query ≠ []) :
    (∀ b : ℕ,
      (filterItem fold value query match_on fold_diacritics).2 = some b →
      (b = MATCH_STARTSWITH ∨ b = MATCH_CAPITALS ∨ b = MATCH_ATOM ∨
        b = MATCH_INITIALS_STARTSWITH ∨ b = MATCH_INITIALS_CONTAIN ∨
        b = MATCH_SUBSTRING ∨ b = MATCH_ALLCHARS) ∧ match_on &&& b ≠ 0) ∧
    (match_on &&& 127 = 0 →
      filterItem fold value query match_on fold_diacritics = (0, none)) := by
  constructor
  · intro b hb
    unfold filterItem filterItemCore at hb
    split at hb
    · exact absurd hb (by simp)
    split at hb
    case isTrue hg =>
      simp only [Prod.snd, Option.some.injEq] at hb
      refine ⟨Or.inl hb.symm, ?_⟩
      subst hb
      simpa [bne_iff_ne] using (Bool.and_eq_true _ _ |>.mp hg).1
    split at hb
    case isTrue hg =>
      simp only [Prod.snd, Option.some.injEq] at hb
      refine ⟨Or.inr (Or.inl hb.symm), ?_⟩
      subst hb
      simpa [bne_iff_ne] using (Bool.and_eq_true _ _ |>.mp hg).1
    split at hb
    case isTrue hg =>
      simp only [Prod.snd, Option.some.injEq] at hb
      refine ⟨Or.inr (Or.inr (Or.inl hb.symm)), ?_⟩
      subst hb
      simpa [bne_iff_ne] using (Bool.and_eq_true _ _ |>.mp hg).1
    split at hb
    case isTrue hg =>
      simp only [Prod.snd, Option.some.injEq] at hb
      refine ⟨Or.inr (Or.inr (Or.inr (Or.inl hb.symm))), ?_⟩
      subst hb
      simpa [bne_iff_ne] using (Bool.and_eq_true _ _ |>.mp hg).1
    split at hb
    case isTrue hg =>
      simp only [Prod.snd, Option.some.injEq] at hb
      refine ⟨Or.inr (Or.inr (Or.inr (Or.inr (Or.inl hb.symm)))), ?_⟩
      subst hb
      simpa [bne_iff_ne] using (Bool.and_eq_true _ _ |>.mp hg).1
    split at hb
    case isTrue hg =>
      simp only [Prod.snd, Option.some.injEq] at hb
      refine ⟨Or.inr (Or.inr (Or.inr (Or.inr (Or.inr (Or.inl hb.symm))))), ?_⟩
      subst hb
      simpa [bne_iff_ne] using (Bool.and_eq_true _ _ |>.mp hg).1
    split at hb
    case isTrue hg =>
      split at hb
      · simp only [Prod.snd, Option.some.injEq] at hb
        refine ⟨Or.inr (Or.inr (Or.inr (Or.inr (Or.inr (Or.inr hb.symm))))),
          ?_⟩
        subst hb
        simpa [bne_iff_ne] using hg
      · exact absurd hb (by simp)
    · exact absurd hb (by simp)
  · intro h127
    have e1 : match_on &&& MATCH_STARTSWITH = 0 :=
      land_bit_eq_zero (by decide) h127
    have e2 : match_on &&& MATCH_CAPITALS = 0 :=
      land_bit_eq_zero (by decide) h127
    have e4 : match_on &&& MATCH_ATOM = 0 :=
      land_bit_eq_zero (by decide) h127
    have e8 : match_on &&& MATCH_INITIALS_STARTSWITH = 0 :=
      land_bit_eq_zero (by decide) h127
    have e16 : match_on &&& MATCH_INITIALS_CONTAIN = 0 :=
      land_bit_eq_zero (by decide) h127
    have e32 : match_on &&& MATCH_SUBSTRING = 0 :=
      land_bit_eq_zero (by decide) h127
    have e64 : match_on &&& MATCH_ALLCHARS = 0 :=
      land_bit_eq_zero (by decide) h127
    unfold filterItem filterItemCore
    simp [e1, e2, e4, e8, e16, e32, e64]

/-- Witness for C9: a mask sharing no bit with the seven rule bits is
inert and _filter_item returns (0, none). -/
theorem claim_C9_witness :
    filterItem id ['a'] ['a'] 128 false = (0, none) :=
  (claim_C9 id ['a'] ['a'] 128 false (by decide)).2 (by decide)

/-- C10: at value = 100 copies of the letter a, word = that letter and the
full mask, the STARTSWITH condition holds yet _filter_item returns score 0
paired with MATCH_STARTSWITH (not (0, none)); the ALLCHARS rule alone
would have scored 50; and filter rejects the candidate. -/
theorem claim_C10 :
    filterItem id (List.replicate 100 'a') ['a'] 127 false
        = (0, some MATCH_STARTSWITH) ∧
      (filterItem id (List.replicate 100 'a') ['a'] 127 false).2 ≠ none ∧
      filterItem id (List.replicate 100 'a') ['a'] 64 false
        = (50, some MATCH_ALLCHARS) ∧
      pyFilter id ['a'] [List.replicate 100 'a'] id false false 0 0 127 false
        = .plain [] := by
  have h : filterItem id (List.replicate 100 'a') ['a'] 127 false
      = (0, some 1) := by
    norm_num +decide [filterItem, effValue, filterItemCore,
      show pyLower ['a'] = ['a'] from by decide]
  refine ⟨h, by rw [h]; decide, ?_, ?_⟩
  · norm_num +decide [filterItem, effValue, filterItemCore,
      show reSearchEnd (pyLower ['a']) (List.replicate 100 'a') = some 1
        from by decide, MATCH_ALLCHARS]
  · have he : itemEntry id (id : Str → Str) (wordsOf ['a']) 127 false
        (List.replicate 100 'a') = none := by
      norm_num +decide [itemEntry, wordLoop, h,
        show wordsOf ['a'] = [['a']] from by decide,
        show pyStrip ['a'] = ['a'] from by decide,
        show pyStrip (List.replicate 100 'a') = List.replicate 100 'a'
          from by decide]
    norm_num +decide [pyFilter, annotatedResults, rawResults, he,
      pySortResults]

lemma pyLowerChar_nonascii {c : Char} (h : isasciiChar c = false) :
    pyLowerChar c = c := by
  unfold pyLowerChar
  rw [if_neg]
  intro hc
  rw [Bool.and_eq_true] at hc
  have h1 : c ≤ 'Z' := by simpa using hc.2
  have h2 : c.toNat ≤ 90 := h1
  simp only [isasciiChar, decide_eq_false_iff_not, not_lt] at h
  omega

lemma isascii_pyLower_false {q : Str} {c : Char} (hc : c ∈ q)
    (h : isasciiChar c = false) : isascii (pyLower q) = false := by
  have hmem : c ∈ pyLower q := by
    rw [show c = pyLowerChar c from (pyLowerChar_nonascii h).symm]
    exact List.mem_map_of_mem _ hc
  simp only [isascii, List.all_eq_false]
  exact ⟨c, hmem, by simp [h]⟩

/-- C8 (spec-modelled isascii): for every word containing a non-ASCII
character, _filter_item behaves identically for every value of
fold_diacritics: the search key is never folded for that word. -/
theorem claim_C8 (fold : Str → Str) (value query : Str) (match_on : ℕ)
    (h : ∃ c ∈ query, isasciiChar c = false) (fd1 fd2 : Bool) :
    filterItem fold value query match_on fd1
      = filterItem fold value query match_on fd2 := by
  obtain ⟨c, hc, hca⟩ := h
  unfold filterItem effValue
  rw [isascii_pyLower_false hc hca]
  simp

/-- Witness for C8 at a concrete accented word. -/
theorem claim_C8_witness :
    filterItem id ['c', 'a', 'f', 'e'] ['é'] 127 true
      = filterItem id ['c', 'a', 'f', 'e'] ['é'] 127 false :=
  claim_C8 id ['c', 'a', 'f', 'e'] ['é'] 127 ⟨'é', by decide, by decide⟩
    true false

lemma pySplit_ne_nil (p : Char → Bool) (s : Str) : pySplit p s ≠ [] := by
  cases s with
  | nil => simp [pySplit]
  | cons c cs =>
    unfold pySplit
    cases pySplit p cs with
    | nil => simp
    | cons piece rest =>
      by_cases hp : p c <;> simp [hp]

lemma pySplit_cons (p : Char → Bool) (c : Char) (cs : Str) :
    pySplit p (c :: cs) =
      if p c then [] :: pySplit p cs
      else (c :: (pySplit p cs).headI) :: (pySplit p cs).tail := by
  rcases h : pySplit p cs with _ | ⟨piece, rest⟩
  · exact absurd h (pySplit_ne_nil p cs)
  · rw [pySplit, h]
    by_cases hp : p c <;> simp [hp]

lemma mem_of_mem_pySplit {p : Char → Bool} {c : Char} :
    ∀ {s pc : Str}, pc ∈ pySplit p s → c ∈ pc → c ∈ s := by
  intro s
  induction s with
  | nil =>
    intro pc hpc hc
    simp only [pySplit, List.mem_singleton] at hpc
    subst hpc
    exact absurd hc (List.not_mem_nil c)
  | cons a as ih =>
    intro pc hpc hc
    rcases hsplit : pySplit p as with _ | ⟨piece, rest⟩
    · exact absurd hsplit (pySplit_ne_nil p as)
    rw [pySplit_cons, hsplit] at hpc
    by_cases hp : p a
    · rw [if_pos hp] at hpc
      rcases List.mem_cons.mp hpc with h | h
      · subst h
        exact absurd hc (List.not_mem_nil c)
      · exact List.mem_cons_of_mem a (ih (hsplit.symm ▸ h) hc)
    · rw [if_neg hp] at hpc
      rcases List.mem_cons.mp hpc with h | h
      · subst h
        rcases List.mem_cons.mp hc with h2 | h2
        · subst h2
          exact List.mem_cons_self c as
        · refine List.mem_cons_of_mem a (ih ?_ h2)
          rw [hsplit]
          exact List.mem_cons_self piece rest
      · refine List.mem_cons_of_mem a (ih ?_ hc)
        rw [hsplit]
        exact List.mem_cons_of_mem piece h

lemma runs_eq_filter_pySplit (s : Str) :
    (pySplit (fun c => !isAlnumAscii c) s).filter (fun pc => !pc.isEmpty)
      = maximalAlnumRuns s := by
  induction s with
  | nil => rfl
  | cons c cs ih =>
    rw [pySplit_cons]
    cases cs with
    | nil =>
      by_cases hc : isAlnumAscii c <;>
        simp [pySplit, maximalAlnumRuns, hc, List.filter]
    | cons c2 cs2 =>
      by_cases hc : isAlnumAscii c
      · by_cases hc2 : isAlnumAscii c2
        · have hS : pySplit (fun x => !isAlnumAscii x) (c2 :: cs2) =
              (c2 :: (pySplit (fun x => !isAlnumAscii x) cs2).headI) ::
                (pySplit (fun x => !isAlnumAscii x) cs2).tail := by
            rw [pySplit_cons, if_neg (by simp [hc2])]
          have hruns : maximalAlnumRuns (c2 :: cs2) =
              (c2 :: (pySplit (fun x => !isAlnumAscii x) cs2).headI) ::
                ((pySplit (fun x => !isAlnumAscii x) cs2).tail.filter
                  (fun pc => !pc.isEmpty)) := by
            rw [← ih, hS, List.filter_cons]
            simp
          have houter : maximalAlnumRuns (c :: c2 :: cs2) =
              (c :: (maximalAlnumRuns (c2 :: cs2)).headI) ::
                (maximalAlnumRuns (c2 :: cs2)).tail := by
            conv_lhs => rw [maximalAlnumRuns]
            simp [hc, hc2]
          rw [if_neg (by simp [hc]), hS, houter, hruns]
          simp [List.filter_cons]
        · have hS : pySplit (fun x => !isAlnumAscii x) (c2 :: cs2) =
              [] :: pySplit (fun x => !isAlnumAscii x) cs2 := by
            rw [pySplit_cons, if_pos (by simp [hc2])]
          have hmid : (pySplit (fun x => !isAlnumAscii x) cs2).filter
              (fun pc => !pc.isEmpty) = maximalAlnumRuns (c2 :: cs2) := by
            rw [← ih, hS, List.filter_cons]
            simp
          have houter : maximalAlnumRuns (c :: c2 :: cs2) =
              [c] :: maximalAlnumRuns (c2 :: cs2) := by
            conv_lhs => rw [maximalAlnumRuns]
            simp [hc, hc2]
          rw [if_neg (by simp [hc]), hS, houter, ← hmid]
          simp [List.filter_cons]
      · have houter : maximalAlnumRuns (c :: c2 :: cs2) =
            maximalAlnumRuns (c2 :: cs2) := by
          conv_lhs => rw [maximalAlnumRuns]
          simp [hc]
        rw [if_pos (by simp [hc]), houter, ← ih, List.filter_cons]
        simp

lemma listContains_iff {β : Type} [BEq β] [LawfulBEq β] {l : List β}
    {q : β} : l.contains q = true ↔ q ∈ l := by
  simp [List.contains, List.elem_iff]

lemma length_pyLower (s : Str) : (pyLower s).length = s.length :=
  List.length_map s pyLowerChar

lemma mem_atoms_iff {v q : Str} (hq : q ≠ []) :
    q ∈ atomsOf v ↔ q ∈ (maximalAlnumRuns v).map pyLower := by
  unfold atomsOf split_on_delimiters
  rw [← runs_eq_filter_pySplit]
  constructor
  · intro h
    obtain ⟨pc, hpc, hlow⟩ := List.mem_map.mp h
    refine List.mem_map.mpr ⟨pc, List.mem_filter.mpr ⟨hpc, ?_⟩, hlow⟩
    have : pc ≠ [] := by
      intro hnil
      rw [hnil] at hlow
      exact hq hlow.symm
    simpa [List.isEmpty_iff]
  · intro h
    obtain ⟨pc, hpc, hlow⟩ := List.mem_map.mp h
    exact List.mem_map.mpr ⟨pc, (List.mem_filter.mp hpc).1, hlow⟩

lemma atom_prefilter {v q : Str} (h : q ∈ atomsOf v) :
    prefilter v q = true := by
  unfold prefilter
  rw [List.all_eq_true]
  intro c hc
  obtain ⟨pc, hpc, hlow⟩ := List.mem_map.mp h
  rw [← hlow] at hc
  obtain ⟨c0, hc0, hc0l⟩ := List.mem_map.mp hc
  rw [listContains_iff, ← hc0l]
  exact List.mem_map_of_mem _ (mem_of_mem_pySplit hpc hc0)

/-- C7: the ATOM rule matches exactly when the lowercased word equals one
of the atoms of the (post-fold) value, the atoms being its maximal runs of
alphanumeric characters, lowercased; a match scores
100.0 - len(value)/len(word). -/
theorem claim_C7 (fold : Str → Str) (value query : Str) (fd : Bool)
    (hq : query ≠ []) :
    filterItem fold value query MATCH_ATOM fd =
      if pyLower query ∈
          (maximalAlnumRuns (effValue fold value query fd)).map pyLower then
        (100 - ((effValue fold value query fd).length : ℚ) /
          ((query.length : ℕ) : ℚ), some MATCH_ATOM)
      else (0, none) := by
  have hq' : pyLower query ≠ [] := by
    simpa [pyLower, List.map_eq_nil_iff] using hq
  unfold filterItem filterItemCore
  by_cases hmem : pyLower query ∈ atomsOf (effValue fold value query fd)
  · have hpre := atom_prefilter hmem
    rw [if_neg (by simp [hpre])]
    rw [if_neg (by simp [MATCH_ATOM, MATCH_STARTSWITH,
      show ((4 : ℕ) &&& 1) = 0 from by decide])]
    rw [if_neg (by simp [MATCH_ATOM, MATCH_CAPITALS,
      show ((4 : ℕ) &&& 2) = 0 from by decide])]
    rw [if_pos (by
      simp [MATCH_ATOM, show ((4 : ℕ) &&& 4) = 4 from by decide,
        List.contains, List.elem_iff]
      exact hmem)]
    rw [if_pos ((mem_atoms_iff hq').mp hmem)]
    rw [length_pyLower]
  · rw [if_neg (fun hx => hmem ((mem_atoms_iff hq').mpr hx))]
    have hcont : (atomsOf (effValue fold value query fd)).contains
        (pyLower query) = false := by
      rw [Bool.eq_false_iff]
      intro hx
      exact hmem (listContains_iff.mp hx)
    by_cases hpre : prefilter (effValue fold value query fd) (pyLower query)
    · rw [if_neg (by simp [hpre])]
      rw [if_neg (by simp [MATCH_ATOM, MATCH_STARTSWITH,
        show ((4 : ℕ) &&& 1) = 0 from by decide])]
      rw [if_neg (by simp [MATCH_ATOM, MATCH_CAPITALS,
        show ((4 : ℕ) &&& 2) = 0 from by decide])]
      rw [if_neg (by
        simp [MATCH_ATOM, show ((4 : ℕ) &&& 4) = 4 from by decide,
          List.contains, List.elem_iff]
        exact hmem)]
      rw [if_neg (by simp [MATCH_ATOM, MATCH_INITIALS_STARTSWITH,
        show ((4 : ℕ) &&& 8) = 0 from by decide])]
      rw [if_neg (by simp [MATCH_ATOM, MATCH_INITIALS_CONTAIN,
        show ((4 : ℕ) &&& 16) = 0 from by decide])]
      rw [if_neg (by simp [MATCH_ATOM, MATCH_SUBSTRING,
        show ((4 : ℕ) &&& 32) = 0 from by decide])]
      rw [if_neg (by simp [MATCH_ATOM, MATCH_ALLCHARS,
        show ((4 : ℕ) &&& 64) = 0 from by decide])]
    · rw [if_pos (by simp [hpre])]

/-- Witness for C7: the word bar is an atom of foo-bar. -/
theorem claim_C7_witness :
    filterItem id ['f', 'o', 'o', '-', 'b', 'a', 'r'] ['B', 'A', 'R'] 4
        false =
      if pyLower ['B', 'A', 'R'] ∈
          (maximalAlnumRuns (effValue id ['f', 'o', 'o', '-', 'b', 'a', 'r']
            ['B', 'A', 'R'] false)).map pyLower then
        (100 - ((effValue id ['f', 'o', 'o', '-', 'b', 'a', 'r']
          ['B', 'A', 'R'] false).length : ℚ) /
          (((['B', 'A', 'R'] : Str).length : ℕ) : ℚ), some MATCH_ATOM)
      else (0, none) :=
  claim_C7 id ['f', 'o', 'o', '-', 'b', 'a', 'r'] ['B', 'A', 'R'] false
    (by decide)

lemma initials_aux_le (p : Char → Bool) :
    ∀ s : Str,
      ((pySplit p s).filterMap (fun pc => (pyLower pc).head?)).length
        ≤ s.length := by
  intro s
  induction s with
  | nil =>
    simp [pySplit,
      show (fun pc => (pyLower pc).head?) ([] : Str) = none from rfl]
  | cons c cs ih =>
    rcases hS : pySplit p cs with _ | ⟨piece, rest⟩
    · exact absurd hS (pySplit_ne_nil p cs)
    rw [hS] at ih
    rw [pySplit_cons, hS]
    by_cases hp : p c
    · rw [if_pos hp]
      rw [List.filterMap_cons]
      simp only [show (fun pc => (pyLower pc).head?) ([] : Str) = none
        from rfl]
      exact le_trans ih (by simp)
    · rw [if_neg hp]
      simp only [List.headI, List.tail]
      have hrest : (rest.filterMap (fun pc => (pyLower pc).head?)).length
          ≤ cs.length := by
        refine le_trans ?_ ih
        conv_rhs => rw [List.filterMap_cons]
        cases hfp : (pyLower piece).head? <;> simp [hfp]
      rw [List.filterMap_cons]
      simp only [show (fun pc => (pyLower pc).head?) (c :: piece)
        = some (pyLowerChar c) from rfl]
      simpa using Nat.succ_le_succ hrest

lemma initialsOf_length_le (v : Str) : (initialsOf v).length ≤ v.length := by
  unfold initialsOf atomsOf split_on_delimiters
  rw [List.filterMap_map]
  exact initials_aux_le _ v

/-- C5 as the claim states it is refuted: a candidate 91 characters long
matched by SUBSTRING against a one-character word scores 90 - 91/1 < 0. -/
theorem claim_C5_counterexample :
    (filterItem id (List.replicate 90 'b' ++ ['a']) ['a'] 32 false).1
      < 0 := by
  norm_num +decide [filterItem, effValue, filterItemCore,
    show pyLower ['a'] = ['a'] from by decide]

/-- C5 amended: whenever the post-fold search value is shorter than 90
times the word, every score _filter_item returns is non-negative, and the
score is 0 exactly when no active rule matched (rule = none).  Without
that bound, scores can be negative (see the counterexample) or zero with a
matching rule (see C10). -/
theorem claim_C5_amended (fold : Str → Str) (value query : Str)
    (match_on : ℕ) (fd : Bool)
    (h : (effValue fold value query fd).length < 90 * query.length) :
    0 ≤ (filterItem fold value query match_on fd).1 ∧
      ((filterItem fold value query match_on fd).1 = 0 ↔
        (filterItem fold value query match_on fd).2 = none) := by
  have hqpos : 0 < query.length := by omega
  have hlq : (pyLower query).length = query.length := length_pyLower query
  have hq0 : (0 : ℚ) < ((pyLower query).length : ℚ) := by
    rw [hlq]; exact_mod_cast hqpos
  have hbound : ∀ n : ℕ, n ≤ (effValue fold value query fd).length →
      (n : ℚ) / ((pyLower query).length : ℚ) < 90 := by
    intro n hn
    rw [div_lt_iff₀ hq0, hlq]
    have : n < 90 * query.length := lt_of_le_of_lt hn h
    exact_mod_cast this
  have hv := hbound _ le_rfl
  have hcap := hbound ((capitalsOf (effValue fold value query fd)).length)
    (by unfold capitalsOf; exact List.length_filter_le _ _)
  have hini := hbound _ (initialsOf_length_le (effValue fold value query fd))
  unfold filterItem filterItemCore
  split
  · simp
  split
  · exact ⟨by simp only; linarith,
      iff_of_false (by simp only; intro h0; linarith) (by simp)⟩
  split
  · exact ⟨by simp only; linarith,
      iff_of_false (by simp only; intro h0; linarith) (by simp)⟩
  split
  · exact ⟨by simp only; linarith,
      iff_of_false (by simp only; intro h0; linarith) (by simp)⟩
  split
  · exact ⟨by simp only; linarith,
      iff_of_false (by simp only; intro h0; linarith) (by simp)⟩
  split
  · exact ⟨by simp only; linarith,
      iff_of_false (by simp only; intro h0; linarith) (by simp)⟩
  split
  · exact ⟨by simp only; linarith,
      iff_of_false (by simp only; intro h0; linarith) (by simp)⟩
  split
  · split
    · rename_i e heq
      have he : (0 : ℚ) < (1 + (0 : ℚ)) * ((e : ℚ) - 0 + 1) := by
        have : (0 : ℚ) ≤ (e : ℚ) := by exact_mod_cast Nat.zero_le e
        nlinarith
      have hpos : (0 : ℚ) < 100 / ((1 + (0 : ℚ)) * ((e : ℚ) - 0 + 1)) :=
        div_pos (by norm_num) he
      exact ⟨by simp only; linarith,
        iff_of_false (by simp only; intro h0; linarith) (by simp)⟩
    · simp
  · simp

/-- Witness for C5 amended at a short value. -/
theorem claim_C5_witness :
    0 ≤ (filterItem id ['a', 'b'] ['a'] 127 false).1 ∧
      ((filterItem id ['a', 'b'] ['a'] 127 false).1 = 0 ↔
        (filterItem id ['a', 'b'] ['a'] 127 false).2 = none) :=
  claim_C5_amended id ['a', 'b'] ['a'] 127 false (by decide)

lemma wordLoop_skip_false {fold : Str → Str} {match_on : ℕ} {fd : Bool}
    {v : Str} :
    ∀ (ws : List Str) (skip : Bool) (sc : ℚ) (r : Option ℕ),
      (wordLoop fold match_on fd v ws skip sc r).1 = false →
      skip = false ∧
        ∀ w ∈ ws, w ≠ [] → (filterItem fold v w match_on fd).1 ≠ 0 := by
  intro ws
  induction ws with
  | nil =>
    intro skip sc r h
    exact ⟨h, by simp⟩
  | cons w ws ih =>
    intro skip sc r h
    by_cases hw : w = []
    · simp only [wordLoop] at h
      rw [if_pos hw] at h
      obtain ⟨hsk, hrest⟩ := ih _ _ _ h
      refine ⟨hsk, ?_⟩
      intro w' hw' hne
      rcases List.mem_cons.mp hw' with rfl | hmem
      · exact absurd hw hne
      · exact hrest w' hmem hne
    · simp only [wordLoop] at h
      rw [if_neg hw] at h
      obtain ⟨hsk, hrest⟩ := ih _ _ _ h
      rw [Bool.or_eq_false_iff] at hsk
      refine ⟨hsk.1, ?_⟩
      intro w' hw' hne
      rcases List.mem_cons.mp hw' with rfl | hmem
      · exact of_decide_eq_false hsk.2
      · exact hrest w' hmem hne

lemma mem_payload_annotated {fold : Str → Str} {query : Str} {items : List α}
    {key : α → Str} {ascending : Bool} {min_score : ℚ} {max_results : ℕ}
    {match_on : ℕ} {fd : Bool} {p : Payload α}
    (hp : p ∈ annotatedResults fold query items key ascending min_score
      max_results match_on fd) :
    ∃ sk, (sk, p) ∈ rawResults fold query items key match_on fd := by
  simp only [annotatedResults] at hp
  have hp2 : p ∈ (pySortResults ascending (rawResults fold query items key
      match_on fd)).map Prod.snd := by
    split at hp
    · split at hp
      · exact List.mem_of_mem_filter (List.mem_of_mem_take hp)
      · exact List.mem_of_mem_filter hp
    · split at hp
      · exact List.mem_of_mem_take hp
      · exact hp
  obtain ⟨e, he, hsnd⟩ := List.mem_map.mp hp2
  have he' : e ∈ rawResults fold query items key match_on fd := by
    unfold pySortResults at he
    split at he
    · exact (List.perm_insertionSort entryGe _).mem_iff.mp he
    · exact (List.perm_insertionSort entryLe _).mem_iff.mp he
  refine ⟨e.1, ?_⟩
  have : e = (e.1, p) := by
    rw [← hsnd]
  rw [← this]
  exact he'

lemma rawResults_mem_spec {fold : Str → Str} {query : Str} {items : List α}
    {key : α → Str} {match_on : ℕ} {fd : Bool} {sk : SortKey}
    {p : Payload α}
    (h : (sk, p) ∈ rawResults fold query items key match_on fd) :
    p.1 ∈ items ∧ pyStrip (key p.1) ≠ [] ∧
      (wordLoop fold match_on fd (pyStrip (key p.1)) (wordsOf query) false 0
        none).1 = false ∧
      p.2.1 ≠ 0 ∧
      sk = (100 / p.2.1, pyLower (pyStrip (key p.1)), p.2.1) := by
  obtain ⟨a, ha, hent⟩ := List.mem_filterMap.mp h
  simp only [itemEntry] at hent
  split at hent
  · exact absurd hent (by simp)
  split at hent
  · exact absurd hent (by simp)
  split at hent
  · rename_i hnil hskip hsc
    have h2 := Option.some_injective _ hent
    rw [Prod.mk.injEq] at h2
    obtain ⟨hsk, hp⟩ := h2
    rw [← hp] at *
    refine ⟨ha, hnil, ?_, ?_, ?_⟩
    · rw [Bool.not_eq_true] at hskip
      exact hskip
    · exact hsc
    · exact hsk.symm
  · exact absurd hent (by simp)

/-- C1: for a non-blank query, a candidate whose trimmed search key is
non-empty appears in filter's output only if every non-empty word of the
query received a nonzero score from _filter_item. -/
theorem claim_C1 (fold : Str → Str) (query : Str) (items : List α)
    (key : α → Str) (ascending include_score : Bool) (min_score : ℚ)
    (max_results : ℕ) (match_on : ℕ) (fd : Bool)
    (hq : pyStrip query ≠ []) (x : α)
    (hx : memOut x (pyFilter fold query items key ascending include_score
      min_score max_results match_on fd)) :
    pyStrip (key x) ≠ [] ∧
      ∀ w ∈ wordsOf query, w ≠ [] →
        (filterItem fold (pyStrip (key x)) w match_on fd).1 ≠ 0 := by
  unfold pyFilter at hx
  rw [if_neg hq] at hx
  have hpay : ∃ p : Payload α, p.1 = x ∧
      p ∈ annotatedResults fold query items key ascending min_score
        max_results match_on fd := by
    split at hx
    · simp only [memOut] at hx
      obtain ⟨s, r, hm⟩ := hx
      exact ⟨(x, s, r), rfl, hm⟩
    · simp only [memOut] at hx
      obtain ⟨p, hpmem, hpe⟩ := List.mem_map.mp hx
      exact ⟨p, hpe, hpmem⟩
  obtain ⟨p, hpx, hpmem⟩ := hpay
  obtain ⟨sk, hraw⟩ := mem_payload_annotated hpmem
  obtain ⟨_, hne, hskip, _, _⟩ := rawResults_mem_spec hraw
  obtain ⟨_, hwords⟩ := wordLoop_skip_false _ _ _ _ hskip
  rw [hpx] at hne hwords
  exact ⟨hne, hwords⟩

/-- Witness for C1 at a one-word query matching a single candidate. -/
theorem claim_C1_witness :
    pyStrip (id (['a', 'b'] : Str)) ≠ [] ∧
      (filterItem id (pyStrip (['a', 'b'] : Str)) ['a'] 127 false).1 ≠ 0 := by
  have hrun : pyFilter id ['a'] [(['a', 'b'] : Str)] id false false 0 0 127
      false = .plain [['a', 'b']] := by
    have h1 : filterItem id ['a', 'b'] ['a'] 127 false = (98, some 1) := by
      norm_num +decide [filterItem, effValue, filterItemCore,
        show pyLower ['a'] = ['a'] from by decide]
    have he : itemEntry id (id : Str → Str) (wordsOf ['a']) 127 false
        ['a', 'b'] = some ((100 / 98, ['a', 'b'], 98),
          (['a', 'b'], 98, some 1)) := by
      norm_num +decide [itemEntry, wordLoop, h1,
        show wordsOf ['a'] = [['a']] from by decide,
        show pyStrip ['a'] = ['a'] from by decide,
        show pyStrip (['a', 'b'] : Str) = ['a', 'b'] from by decide,
        show pyLower (['a', 'b'] : Str) = ['a', 'b'] from by decide]
    norm_num +decide [pyFilter, annotatedResults, rawResults, he,
      pySortResults, List.insertionSort, List.orderedInsert,
      List.filterMap_cons, List.filterMap_nil]
  have hc := claim_C1 id ['a'] [(['a', 'b'] : Str)] id false false 0 0 127
    false (by decide) ['a', 'b'] (by rw [hrun]; simp [memOut])
  exact ⟨hc.1, hc.2 ['a'] (by decide) (by decide)⟩

lemma rawResults_inv {fold : Str → Str} {query : Str} {items : List α}
    {key : α → Str} {match_on : ℕ} {fd : Bool} :
    ∀ e ∈ rawResults fold query items key match_on fd,
      e.1 = ((100 : ℚ) / e.2.2.1, pyLower (pyStrip (key e.2.1)), e.2.2.1) ∧
        e.2.2.1 ≠ 0 := by
  intro e he
  have hmem : (e.1, e.2) ∈ rawResults fold query items key match_on fd := by
    simpa using he
  have h := rawResults_mem_spec hmem
  exact ⟨h.2.2.2.2, h.2.2.2.1⟩

lemma annotated_pairwise_of_proj {fold : Str → Str} {query : Str}
    {items : List α} {key : α → Str} {ascending : Bool} {min_score : ℚ}
    {max_results : ℕ} {match_on : ℕ} {fd : Bool}
    {R : Payload α → Payload α → Prop}
    (h : ((pySortResults ascending (rawResults fold query items key match_on
      fd)).map Prod.snd).Pairwise R) :
    (annotatedResults fold query items key ascending min_score max_results
      match_on fd).Pairwise R := by
  simp only [annotatedResults]
  split <;> split <;>
    first
      | exact h
      | exact List.Pairwise.sublist (List.filter_sublist _) h
      | exact List.Pairwise.sublist (List.take_sublist _ _) h
      | exact List.Pairwise.sublist (List.take_sublist _ _)
          (List.Pairwise.sublist (List.filter_sublist _) h)

lemma sorted_tie_le {s1 s2 : ℚ} {k1 k2 : Str}
    (hle : sortKeyLe (100 / s1, k1, s1) (100 / s2, k2, s2))
    (hs : s1 = s2) : k1 ≤ k2 := by
  subst hs
  rcases hle with h | ⟨-, h⟩
  · exact absurd h (lt_irrefl _)
  · rcases h with h | ⟨h, -⟩
    · exact le_of_lt h
    · exact le_of_eq h

/-- C4 as the claim states it is refuted: with ascending=True, two
candidates with equal total score 98 come back in descending alphabetical
order of their lowercased keys (ac before ab). -/
theorem claim_C4_counterexample :
    pyFilter id ['a'] [(['a', 'b'] : Str), ['a', 'c']] id true true 0 0 127
        false =
      .scored [((['a', 'c'] : Str), 98, some 1),
        ((['a', 'b'] : Str), 98, some 1)] ∧
      pyLower (pyStrip (['a', 'b'] : Str)) < pyLower
        (pyStrip (['a', 'c'] : Str)) := by
  have h1 : filterItem id ['a', 'b'] ['a'] 127 false = (98, some 1) := by
    norm_num +decide [filterItem, effValue, filterItemCore,
      show pyLower ['a'] = ['a'] from by decide]
  have h2 : filterItem id ['a', 'c'] ['a'] 127 false = (98, some 1) := by
    norm_num +decide [filterItem, effValue, filterItemCore,
      show pyLower ['a'] = ['a'] from by decide]
  have he1 : itemEntry id (id : Str → Str) (wordsOf ['a']) 127 false
      ['a', 'b'] = some ((100 / 98, ['a', 'b'], 98),
        (['a', 'b'], 98, some 1)) := by
    norm_num +decide [itemEntry, wordLoop, h1,
      show wordsOf ['a'] = [['a']] from by decide,
      show pyStrip ['a'] = ['a'] from by decide,
      show pyStrip (['a', 'b'] : Str) = ['a', 'b'] from by decide,
      show pyLower (['a', 'b'] : Str) = ['a', 'b'] from by decide]
  have he2 : itemEntry id (id : Str → Str) (wordsOf ['a']) 127 false
      ['a', 'c'] = some ((100 / 98, ['a', 'c'], 98),
        (['a', 'c'], 98, some 1)) := by
    norm_num +decide [itemEntry, wordLoop, h2,
      show wordsOf ['a'] = [['a']] from by decide,
      show pyStrip ['a'] = ['a'] from by decide,
      show pyStrip (['a', 'c'] : Str) = ['a', 'c'] from by decide,
      show pyLower (['a', 'c'] : Str) = ['a', 'c'] from by decide]
  have hraw : rawResults id ['a'] [(['a', 'b'] : Str), ['a', 'c']] id 127
      false = [((100 / 98, ['a', 'b'], 98), (['a', 'b'], 98, some 1)),
        ((100 / 98, ['a', 'c'], 98), (['a', 'c'], 98, some 1))] := by
    simp [rawResults, List.filterMap_cons, he1, he2]
  have hge : ¬ entryGe (α := Str)
      ((100 / 98, ['a', 'b'], 98), (['a', 'b'], 98, some 1))
      ((100 / 98, ['a', 'c'], 98), (['a', 'c'], 98, some 1)) := by
    intro h
    rcases h with h | ⟨-, h⟩
    · exact absurd h (lt_irrefl _)
    · rcases h with h | ⟨h, -⟩
      · exact absurd h (by decide)
      · exact absurd h (by decide)
  have hsort : pySortResults true (rawResults id ['a']
      [(['a', 'b'] : Str), ['a', 'c']] id 127 false) =
      [((100 / 98, ['a', 'c'], 98), (['a', 'c'], 98, some 1)),
        ((100 / 98, ['a', 'b'], 98), (['a', 'b'], 98, some 1))] := by
    rw [pySortResults, if_pos rfl, hraw]
    simp only [List.insertionSort, List.orderedInsert]
    rw [if_neg hge]
  refine ⟨?_, by decide⟩
  rw [pyFilter, if_neg (by decide)]
  simp only [annotatedResults, hsort, if_true]
  norm_num

/-- C4 amended: among surviving candidates, equal total scores appear in
ascending alphabetical order of the lowercased trimmed search keys when
ascending=False; with ascending=True the entire comparison is reversed, so
equal scores appear in descending alphabetical order. -/
theorem claim_C4_amended (fold : Str → Str) (query : Str) (items : List α)
    (key : α → Str) (min_score : ℚ) (max_results : ℕ) (match_on : ℕ)
    (fd : Bool) :
    (annotatedResults fold query items key false min_score max_results
      match_on fd).Pairwise (tieAlpha key) ∧
    (annotatedResults fold query items key true min_score max_results
      match_on fd).Pairwise (tieAlphaRev key) := by
  constructor
  · refine annotated_pairwise_of_proj (List.pairwise_map.mpr ?_)
    have hs : (pySortResults false (rawResults fold query items key match_on
        fd)).Pairwise entryLe := by
      unfold pySortResults
      rw [if_neg (by simp)]
      exact List.sorted_insertionSort entryLe _
    refine hs.imp_of_mem ?_
    intro a b ha hb hle
    have ha' := rawResults_inv a ((List.perm_insertionSort entryLe
      _).mem_iff.mp ha)
    have hb' := rawResults_inv b ((List.perm_insertionSort entryLe
      _).mem_iff.mp hb)
    intro hsc
    have hle' : sortKeyLe ((100 : ℚ) / a.2.2.1,
        pyLower (pyStrip (key a.2.1)), a.2.2.1) ((100 : ℚ) / b.2.2.1,
        pyLower (pyStrip (key b.2.1)), b.2.2.1) := by
      rw [← ha'.1, ← hb'.1]
      exact hle
    exact sorted_tie_le hle' hsc
  · refine annotated_pairwise_of_proj (List.pairwise_map.mpr ?_)
    have hs : (pySortResults true (rawResults fold query items key match_on
        fd)).Pairwise entryGe := by
      unfold pySortResults
      rw [if_pos rfl]
      exact List.sorted_insertionSort entryGe _
    refine hs.imp_of_mem ?_
    intro a b ha hb hle
    have ha' := rawResults_inv a ((List.perm_insertionSort entryGe
      _).mem_iff.mp ha)
    have hb' := rawResults_inv b ((List.perm_insertionSort entryGe
      _).mem_iff.mp hb)
    intro hsc
    have hle' : sortKeyLe ((100 : ℚ) / b.2.2.1,
        pyLower (pyStrip (key b.2.1)), b.2.2.1) ((100 : ℚ) / a.2.2.1,
        pyLower (pyStrip (key a.2.1)), a.2.2.1) := by
      rw [← ha'.1, ← hb'.1]
      exact hle
    exact sorted_tie_le hle' hsc.symm

lemma rawResultsE_ok {fold : Str → Str} {keyE : α → Except ε Str}
    {words : List Str} {match_on : ℕ} {fd : Bool} (keyP : α → Str) :
    ∀ items : List α, (∀ i ∈ items, keyE i = .ok (keyP i)) →
      rawResultsE fold keyE words match_on fd items
        = .ok (items.filterMap (itemEntry fold keyP words match_on fd)) := by
  intro items
  induction items with
  | nil => intro _; rfl
  | cons a rest ih =>
    intro hk
    have hka : keyE a = .ok (keyP a) := hk a (List.mem_cons_self a rest)
    have hrest := ih (fun i hi => hk i (List.mem_cons_of_mem a hi))
    simp only [rawResultsE, hka, hrest]
    rw [List.filterMap_cons]
    by_cases hv : pyStrip (keyP a) = []
    · have hent : itemEntry fold keyP words match_on fd a = none := by
        simp [itemEntry, hv]
      rw [if_pos hv, hent]
    · rw [if_neg hv]
      by_cases hskip : (wordLoop fold match_on fd (pyStrip (keyP a)) words
          false 0 none).1
      · have hent : itemEntry fold keyP words match_on fd a = none := by
          simp [itemEntry, hv, hskip]
        rw [if_pos hskip, hent]
      · rw [if_neg hskip]
        by_cases hsc : (wordLoop fold match_on fd (pyStrip (keyP a)) words
            false 0 none).2.1 = 0
        · have hent : itemEntry fold keyP words match_on fd a = none := by
            simp only [itemEntry]
            rw [if_neg hv, if_neg hskip, if_neg (by simp [hsc])]
          rw [if_neg (by simp [hsc]), hent]
        · have hent : itemEntry fold keyP words match_on fd a =
              some ((100 / (wordLoop fold match_on fd (pyStrip (keyP a))
                words false 0 none).2.1, pyLower (pyStrip (keyP a)),
                (wordLoop fold match_on fd (pyStrip (keyP a)) words false 0
                  none).2.1),
                (a, (wordLoop fold match_on fd (pyStrip (keyP a)) words
                  false 0 none).2.1,
                  (wordLoop fold match_on fd (pyStrip (keyP a)) words false
                    0 none).2.2)) := by
            simp only [itemEntry]
            rw [if_neg hv, if_neg hskip, if_pos hsc]
          rw [if_pos hsc, hent]

lemma rawResultsE_error {fold : Str → Str} {keyE : α → Except ε Str}
    {words : List Str} {match_on : ℕ} {fd : Bool} {e : ε} :
    ∀ items : List α, firstKeyError keyE items = some e →
      rawResultsE fold keyE words match_on fd items = .error e := by
  intro items
  induction items with
  | nil => intro h; exact absurd h (by simp [firstKeyError])
  | cons a rest ih =>
    intro h
    simp only [firstKeyError] at h
    simp only [rawResultsE]
    cases hka : keyE a with
    | error e' =>
      rw [hka] at h
      simp only [Option.some.injEq] at h
      subst h
      rfl
    | ok k =>
      rw [hka] at h
      rw [ih h]

lemma sortKeyLe_refl (x : SortKey) : sortKeyLe x x :=
  Or.inr ⟨rfl, Or.inr ⟨rfl, le_refl _⟩⟩

lemma pyKeyLt_true_iff (x y : SortKey) :
    pyKeyLt x y = true ↔ ¬ sortKeyLe y x := by
  unfold pyKeyLt sortKeyLe
  by_cases h1 : x.1 = y.1
  · by_cases h2 : x.2.1 = y.2.1
    · by_cases h3 : x.2.2 = y.2.2
      · simp [h1, h2, h3]
      · have h3s : ¬ (y.2.2 = x.2.2) := fun h => h3 h.symm
        simp [h1, h2, h3, h3s, not_le]
    · have h2s : ¬ (y.2.1 = x.2.1) := fun h => h2 h.symm
      have hlt : x.2.1 < y.2.1 ↔ ¬ (y.2.1 < x.2.1) := by
        constructor
        · exact fun h => lt_asymm h
        · intro h
          rcases lt_trichotomy x.2.1 y.2.1 with h' | h' | h'
          exacts [h', absurd h' h2, absurd h' h]
      simp [h1, h2, h2s, hlt]
  · have h1s : ¬ (y.1 = x.1) := fun h => h1 h.symm
    have hlt : x.1 < y.1 ↔ ¬ (y.1 < x.1) := by
      constructor
      · exact fun h => lt_asymm h
      · intro h
        rcases lt_trichotomy x.1 y.1 with h' | h' | h'
        exacts [h', absurd h' h1, absurd h' h]
    simp [h1, h1s, hlt]

lemma pyEntryLt_tieSafe {itemEq : α → α → Bool}
    {itemLt : α → α → Option Bool} {l : List (SortKey × Payload α)}
    (H : ∀ e f, e ∈ l → f ∈ l → e.1 = f.1 →
      e.2 = f.2 ∧ itemEq e.2.1 f.2.1 = true) :
    ∀ x y, x ∈ l → y ∈ l →
      ∃ b, pyEntryLt itemEq itemLt x y = some b ∧
        (b = true ↔ ¬ entryLe y x) := by
  intro x y hx hy
  by_cases hk : x.1 = y.1
  · obtain ⟨hpq, heq⟩ := H x y hx hy hk
    refine ⟨false, ?_, ?_⟩
    · unfold pyEntryLt pyPayloadLt
      rw [if_neg (by simp [hk])]
      rw [if_neg (by simp [heq])]
      rw [if_neg (by simp [hpq])]
      rw [if_neg (by simp [hpq])]
    · have hle : entryLe y x := by
        unfold entryLe
        rw [← hk]
        exact sortKeyLe_refl x.1
      simp [hle]
  · refine ⟨pyKeyLt x.1 y.1, ?_, ?_⟩
    · unfold pyEntryLt
      rw [if_pos hk]
    · exact pyKeyLt_true_iff x.1 y.1

lemma orderedInsertE_eq {β : Type} {r : β → β → Prop} [DecidableRel r]
    {ltE : β → β → Option Bool} {P : β → Prop}
    (hH : ∀ x y, P x → P y →
      ∃ b, ltE x y = some b ∧ (b = true ↔ ¬ r y x)) :
    ∀ (l : List β) (a : β), (∀ x ∈ l, P x) → P a →
      orderedInsertE ltE a l = some (List.orderedInsert r a l) := by
  intro l
  induction l with
  | nil => intro a _ _; rfl
  | cons b bs ih =>
    intro a hl ha
    obtain ⟨c, hc, hiff⟩ := hH b a (hl b (List.mem_cons_self b bs)) ha
    by_cases hr : r a b
    · have hcf : c = false := by
        cases c with
        | false => rfl
        | true => exact absurd hr (hiff.mp rfl)
      rw [hcf] at hc
      simp only [orderedInsertE, hc]
      rw [List.orderedInsert, if_pos hr]
    · have hct : c = true := hiff.mpr hr
      rw [hct] at hc
      simp only [orderedInsertE, hc]
      rw [ih a (fun x hx => hl x (List.mem_cons_of_mem b hx)) ha]
      rw [List.orderedInsert, if_neg hr]
      rfl

lemma insertionSortE_eq {β : Type} {r : β → β → Prop} [DecidableRel r]
    {ltE : β → β → Option Bool} {P : β → Prop}
    (hH : ∀ x y, P x → P y →
      ∃ b, ltE x y = some b ∧ (b = true ↔ ¬ r y x)) :
    ∀ l : List β, (∀ x ∈ l, P x) →
      insertionSortE ltE l = some (l.insertionSort r) := by
  intro l
  induction l with
  | nil => intro _; rfl
  | cons a as ih =>
    intro hl
    simp only [insertionSortE]
    rw [ih (fun x hx => hl x (List.mem_cons_of_mem a hx))]
    rw [show List.insertionSort r (a :: as)
      = List.orderedInsert r a (List.insertionSort r as) from rfl]
    exact orderedInsertE_eq hH _ a
      (fun x hx => hl x (List.mem_cons_of_mem a
        ((List.perm_insertionSort r as).mem_iff.mp hx)))
      (hl a (List.mem_cons_self a as))

/-- C6 as the claim states it is refuted: a key function that never raises
does not guarantee that filter raises no error.  Two non-comparable items
(itemLt always a TypeError, as for dicts) sharing the search key ab tie
exactly on the sort key, the sort's tuple comparison falls through to the
items, and filter raises TypeError. -/
theorem claim_C6_counterexample :
    pyFilterExc id ['a'] [0, 1]
        (fun _ => Except.ok ['a', 'b'] : ℕ → Except Unit Str)
        (fun a b : ℕ => a == b) (fun _ _ => none) false false 0 0 127 false
      = .error .typeError := by
  have h1 : filterItem id ['a', 'b'] ['a'] 127 false = (98, some 1) := by
    norm_num +decide [filterItem, effValue, filterItemCore,
      show pyLower ['a'] = ['a'] from by decide]
  have he0 : itemEntry id (fun _ : ℕ => (['a', 'b'] : Str)) (wordsOf ['a'])
      127 false 0 = some ((100 / 98, ['a', 'b'], 98), (0, 98, some 1)) := by
    norm_num +decide [itemEntry, wordLoop, h1,
      show wordsOf ['a'] = [['a']] from by decide,
      show pyStrip ['a'] = ['a'] from by decide,
      show pyStrip (['a', 'b'] : Str) = ['a', 'b'] from by decide,
      show pyLower (['a', 'b'] : Str) = ['a', 'b'] from by decide]
  have he1 : itemEntry id (fun _ : ℕ => (['a', 'b'] : Str)) (wordsOf ['a'])
      127 false 1 = some ((100 / 98, ['a', 'b'], 98), (1, 98, some 1)) := by
    norm_num +decide [itemEntry, wordLoop, h1,
      show wordsOf ['a'] = [['a']] from by decide,
      show pyStrip ['a'] = ['a'] from by decide,
      show pyStrip (['a', 'b'] : Str) = ['a', 'b'] from by decide,
      show pyLower (['a', 'b'] : Str) = ['a', 'b'] from by decide]
  have hrawE : rawResultsE id
      (fun _ => Except.ok ['a', 'b'] : ℕ → Except Unit Str) (wordsOf ['a'])
      127 false [0, 1]
      = .ok [((100 / 98, ['a', 'b'], 98), (0, 98, some 1)),
          ((100 / 98, ['a', 'b'], 98), (1, 98, some 1))] := by
    rw [rawResultsE_ok (fun _ : ℕ => (['a', 'b'] : Str)) [0, 1]
      (fun i _ => rfl)]
    simp [List.filterMap_cons, he0, he1]
  have hlt : pyEntryLt (fun a b : ℕ => a == b) (fun _ _ => none)
      ((100 / 98, ['a', 'b'], 98), (1, 98, some 1))
      ((100 / 98, ['a', 'b'], 98), (0, 98, some 1)) = none := by
    unfold pyEntryLt pyPayloadLt
    rw [if_neg (by simp)]
    rw [if_pos (by decide)]
  have hsortE : pySortResultsE (fun a b : ℕ => a == b) (fun _ _ => none)
      false [((100 / 98, ['a', 'b'], 98), (0, 98, some 1)),
        ((100 / 98, ['a', 'b'], 98), (1, 98, some 1))] = none := by
    unfold pySortResultsE
    rw [if_neg (by simp)]
    simp only [insertionSortE, orderedInsertE, hlt]
  unfold pyFilterExc
  rw [if_neg (by decide)]
  simp only [hrawE, hsortE]

/-- C6 amended: an error raised by the key function on some reached item
propagates unmodified to the caller (wrapped as the user exception); and
filter returns normally with its usual output provided the key function
returns a string for every item AND no two surviving entries tie exactly
on the sort key unless they are identical results of ==-equal items — the
condition under which the sort's fall-through comparison of tied tuples,
which can reach the items themselves, cannot raise. -/
theorem claim_C6_amended (fold : Str → Str) (query : Str) (items : List α)
    (keyE : α → Except ε Str) (itemEq : α → α → Bool)
    (itemLt : α → α → Option Bool) (ascending include_score : Bool)
    (min_score : ℚ) (max_results : ℕ) (match_on : ℕ) (fd : Bool)
    (hq : pyStrip query ≠ []) :
    (∀ keyP : α → Str, (∀ i ∈ items, keyE i = .ok (keyP i)) →
      (∀ e f, e ∈ rawResults fold query items keyP match_on fd →
        f ∈ rawResults fold query items keyP match_on fd → e.1 = f.1 →
        e.2 = f.2 ∧ itemEq e.2.1 f.2.1 = true) →
      pyFilterExc fold query items keyE itemEq itemLt ascending
          include_score min_score max_results match_on fd
        = .ok (pyFilter fold query items keyP ascending include_score
            min_score max_results match_on fd)) ∧
    (∀ e : ε, firstKeyError keyE items = some e →
      pyFilterExc fold query items keyE itemEq itemLt ascending
        include_score min_score max_results match_on fd
        = .error (.user e)) := by
  constructor
  · intro keyP hkey htie
    unfold pyFilterExc pyFilter
    rw [if_neg hq, if_neg hq, rawResultsE_ok keyP items hkey]
    rw [show items.filterMap (itemEntry fold keyP (wordsOf query) match_on
      fd) = rawResults fold query items keyP match_on fd from rfl]
    have hsorted : pySortResultsE itemEq itemLt ascending
        (rawResults fold query items keyP match_on fd)
        = some (pySortResults ascending
          (rawResults fold query items keyP match_on fd)) := by
      unfold pySortResultsE pySortResults
      cases ascending with
      | false =>
        rw [if_neg (by simp), if_neg (by simp)]
        exact insertionSortE_eq (pyEntryLt_tieSafe htie) _ (fun x hx => hx)
      | true =>
        rw [if_pos rfl, if_pos rfl]
        refine insertionSortE_eq ?_ _ (fun x hx => hx)
        intro x y hx hy
        obtain ⟨b, hb, hiff⟩ := pyEntryLt_tieSafe htie y x hy hx
        exact ⟨b, hb, hiff⟩
    simp only [hsorted]
    simp only [annotatedResults, rawResults]
  · intro e he
    unfold pyFilterExc
    rw [if_neg hq, rawResultsE_error items he]

/-- Witness for C6 amended: a run with one surviving candidate returns
normally with the pure pipeline's output, and a key function failing on
the second item propagates its error out of filter. -/
theorem claim_C6_witness :
    (pyFilterExc id ['a'] [0]
        (fun _ => Except.ok ['a', 'b'] : ℕ → Except Unit Str)
        (fun a b : ℕ => a == b) (fun _ _ => none) false false 0 0 127 false
      = .ok (pyFilter id ['a'] [0] (fun _ => ['a', 'b']) false false 0 0 127
          false)) ∧
    (pyFilterExc id ['a'] [0, 1]
        (fun n => if n = 0 then Except.ok ['a'] else Except.error ()
          : ℕ → Except Unit Str)
        (fun a b : ℕ => a == b) (fun _ _ => none) false false 0 0 127 false
      = .error (.user ())) := by
  constructor
  · have h1 : filterItem id ['a', 'b'] ['a'] 127 false = (98, some 1) := by
      norm_num +decide [filterItem, effValue, filterItemCore,
        show pyLower ['a'] = ['a'] from by decide]
    have he0 : itemEntry id (fun _ : ℕ => (['a', 'b'] : Str))
        (wordsOf ['a']) 127 false 0
        = some ((100 / 98, ['a', 'b'], 98), (0, 98, some 1)) := by
      norm_num +decide [itemEntry, wordLoop, h1,
        show wordsOf ['a'] = [['a']] from by decide,
        show pyStrip ['a'] = ['a'] from by decide,
        show pyStrip (['a', 'b'] : Str) = ['a', 'b'] from by decide,
        show pyLower (['a', 'b'] : Str) = ['a', 'b'] from by decide]
    have hraw : rawResults id ['a'] [0] (fun _ => ['a', 'b']) 127 false
        = [((100 / 98, ['a', 'b'], 98), (0, 98, some 1))] := by
      simp [rawResults, List.filterMap_cons, he0]
    refine (claim_C6_amended id ['a'] [0]
      (fun _ => Except.ok ['a', 'b'] : ℕ → Except Unit Str)
      (fun a b : ℕ => a == b) (fun _ _ => none) false false 0 0 127 false
      (by decide)).1 (fun _ => ['a', 'b']) (fun i _ => rfl) ?_
    intro e f he hf _
    rw [hraw] at he hf
    simp only [List.mem_singleton] at he hf
    subst he
    subst hf
    exact ⟨rfl, by decide⟩
  · exact (claim_C6_amended id ['a'] [0, 1]
      (fun n => if n = 0 then Except.ok ['a'] else Except.error ()
        : ℕ → Except Unit Str)
      (fun a b : ℕ => a == b) (fun _ _ => none) false false 0 0 127 false
      (by decide)).2 () (by decide)

end AlfredW
